import Mathlib

/-!
Shallow embedding of the localsend-go protocol engine
(`internal/handlers/send.go` and `internal/handlers/receive.go`).

Go `map[string]V` values are embedded as association lists whose update
operation replaces the binding for an existing key in place (Go map
assignment semantics); filesystem state on the receiving side is an
association list from paths to file contents.
-/

namespace LocalSendGo

/-! ### Go map model -/

/-- Lookup in a Go map (association list). -/
def lookupKey {α : Type} : List (String × α) → String → Option α
  | [], _ => none
  | (k, v) :: rest, k' => if k = k' then some v else lookupKey rest k'

/-- Go map assignment `m[k] = v`: replaces an existing binding, else appends. -/
def insertKey {α : Type} : List (String × α) → String → α → List (String × α)
  | [], k, v => [(k, v)]
  | (k0, v0) :: rest, k, v =>
    if k0 = k then (k, v) :: rest else (k0, v0) :: insertKey rest k v

/-- Deletion of a key (models `os.Remove` on the filesystem map). -/
def removeKey {α : Type} : List (String × α) → String → List (String × α)
  | [], _ => []
  | (k0, v0) :: rest, k =>
    if k0 = k then removeKey rest k else (k0, v0) :: removeKey rest k

/-- The keys of a Go map. -/
def mapKeys {α : Type} (m : List (String × α)) : List String := m.map Prod.fst

theorem lookupKey_insertKey_self {α : Type} (m : List (String × α)) (k : String) (v : α) :
    lookupKey (insertKey m k v) k = some v := by
  induction m with
  | nil => simp [insertKey, lookupKey]
  | cons p rest ih =>
    obtain ⟨k0, v0⟩ := p
    by_cases h : k0 = k
    · simp [insertKey, h, lookupKey]
    · simp [insertKey, h, lookupKey, ih]

theorem lookupKey_insertKey_ne {α : Type} (m : List (String × α)) (k k' : String) (v : α)
    (h : k ≠ k') : lookupKey (insertKey m k v) k' = lookupKey m k' := by
  induction m with
  | nil => simp [insertKey, lookupKey, h]
  | cons p rest ih =>
    obtain ⟨k0, v0⟩ := p
    by_cases h0 : k0 = k
    · subst h0
      simp only [insertKey, if_true]
      simp [lookupKey, h]
    · simp only [insertKey, h0, if_false, lookupKey]
      by_cases h1 : k0 = k'
      · simp [h1]
      · simp [h1, ih]

theorem lookupKey_removeKey_self {α : Type} (m : List (String × α)) (k : String) :
    lookupKey (removeKey m k) k = none := by
  induction m with
  | nil => simp [removeKey, lookupKey]
  | cons p rest ih =>
    obtain ⟨k0, v0⟩ := p
    by_cases h : k0 = k
    · simp [removeKey, h, ih]
    · simp [removeKey, h, lookupKey, ih]

theorem mem_insertKey {α : Type} (m : List (String × α)) (k : String) (v : α)
    (p : String × α) (hp : p ∈ insertKey m k v) : p = (k, v) ∨ p ∈ m := by
  induction m with
  | nil => simpa [insertKey] using hp
  | cons q rest ih =>
    obtain ⟨k0, v0⟩ := q
    by_cases h : k0 = k
    · simp only [insertKey, h, if_true, List.mem_cons] at hp
      rcases hp with h1 | h1
      · exact Or.inl h1
      · exact Or.inr (List.mem_cons_of_mem _ h1)
    · simp only [insertKey, h, if_false, List.mem_cons] at hp
      rcases hp with h1 | h1
      · exact Or.inr (by simp [h1])
      · rcases ih h1 with h2 | h2
        · exact Or.inl h2
        · exact Or.inr (List.mem_cons_of_mem _ h2)

theorem mapKeys_insertKey {α : Type} (m : List (String × α)) (k : String) (v : α) :
    mapKeys (insertKey m k v) = if k ∈ mapKeys m then mapKeys m else mapKeys m ++ [k] := by
  induction m with
  | nil => simp [insertKey, mapKeys]
  | cons p rest ih =>
    obtain ⟨k0, v0⟩ := p
    by_cases h : k0 = k
    · subst h
      simp [insertKey, mapKeys]
    · have hne : ¬ k = k0 := fun hk => h hk.symm
      have hcons : insertKey ((k0, v0) :: rest) k v = (k0, v0) :: insertKey rest k v := by
        simp [insertKey, h]
      by_cases hmem : k ∈ mapKeys rest
      · have hmem2 : k ∈ mapKeys ((k0, v0) :: rest) := List.mem_cons_of_mem _ hmem
        rw [hcons]
        show k0 :: mapKeys (insertKey rest k v) = _
        rw [ih, if_pos hmem, if_pos hmem2]
        rfl
      · have hmem2 : k ∉ mapKeys ((k0, v0) :: rest) := by
          simp only [mapKeys, List.map_cons, List.mem_cons]
          push_neg
          exact ⟨hne, by simpa [mapKeys] using hmem⟩
        rw [hcons]
        show k0 :: mapKeys (insertKey rest k v) = _
        rw [ih, if_neg hmem, if_neg hmem2]
        rfl

theorem nodup_mapKeys_insertKey {α : Type} (m : List (String × α)) (k : String) (v : α)
    (h : (mapKeys m).Nodup) : (mapKeys (insertKey m k v)).Nodup := by
  rw [mapKeys_insertKey]
  by_cases hmem : k ∈ mapKeys m
  · simpa [hmem]
  · simp only [hmem, if_false]
    simpa [List.nodup_append] using ⟨h, hmem⟩

/-! ### Data model (`internal/models`, reconstructed from its use in the handlers) -/

/-- Device description sent with every handshake request. -/
structure Info where
  alias' : String
  version : String
  deviceModel : String
  deviceType : String
  fingerprint : String
  port : Nat
  protocol : String
  download : Bool
deriving Repr, DecidableEq

/-- Per-file metadata carried in the manifest. The preview payload is a byte
string (Go `[]byte`), embedded here as a `String`. -/
structure FileInfo where
  id : String
  fileName : String
  size : Nat
  fileType : String
  sha256 : String
  preview : String
deriving Repr, DecidableEq

/-- The body of `POST /api/localsend/v2/prepare-upload`. -/
structure PrepareReceiveRequest where
  info : Info
  files : List (String × FileInfo)
deriving Repr, DecidableEq

/-- The body of a successful prepare-upload response. -/
structure PrepareReceiveResponse where
  sessionID : String
  files : List (String × String)
deriving Repr, DecidableEq

/-! ### Path helpers (`filepath.Base` / `filepath.Ext` as used on walked file paths) -/

/-- Final path element of a walked regular-file path (Go `info.Name()`):
everything after the last path separator. -/
def baseName (p : String) : String :=
  String.mk ((p.data.reverse.takeWhile (fun c => c != '/')).reverse)

/-- Go `filepath.Ext`: the suffix of the final path element starting at its
final dot, or the empty string when the final element has no dot. -/
def goExt (p : String) : String :=
  let rev := (baseName p).data.reverse
  let pre := rev.takeWhile (fun c => c ≠ '.')
  if pre.length = rev.length then "" else String.mk ('.' :: pre.reverse)

/-! ### Manifest builder (`SendFileToOtherDevicePrepare`, the `filepath.Walk` loop) -/

/-- One visit of `filepath.Walk`: the walked path and whether it is a directory,
plus the size reported by `info.Size()`. Visits happen in Go's lexical walk
order; the list order is that visit order. -/
structure WalkEntry where
  filePath : String
  isDir : Bool
  size : Nat
deriving Repr, DecidableEq

/-- The `models.FileInfo` literal built for one visited regular file.
`hash` is the external SHA-256 utility (a collaborator, given as a function
from the file path to its digest string). -/
def mkFileInfo (hash : String → String) (e : WalkEntry) : FileInfo :=
  { id := baseName e.filePath
    fileName := baseName e.filePath
    size := e.size
    fileType := goExt e.filePath
    sha256 := hash e.filePath
    preview := "" }

/-- The manifest map built by the walk: directories are skipped, and each
regular file is assigned into the map under its basename (`files[id] = meta`). -/
def buildManifest (hash : String → String) (entries : List WalkEntry) :
    List (String × FileInfo) :=
  entries.foldl
    (fun m e => if e.isDir then m else insertKey m (baseName e.filePath) (mkFileInfo hash e))
    []

/-! ### Decimal rendering (`fmt.Sprintf` with `%d`) -/

/-- Little-endian decimal digits of `n`, computed with `n` itself as fuel
(the fuel is always sufficient because `n / 10 < n` for `n > 0`). -/
def decDigitsGo : Nat → Nat → List Nat
  | _, 0 => []
  | 0, _ + 1 => []
  | f + 1, m + 1 => ((m + 1) % 10) :: decDigitsGo f ((m + 1) / 10)

/-- Decimal string rendering of a natural number, modelling Go's `%d` verb. -/
def decRepr (n : Nat) : String :=
  if n = 0 then "0" else String.mk (((decDigitsGo n n).map Nat.digitChar).reverse)

/-- Two's-complement wraparound of a 64-bit Go `int` (the handlers are built
for 64-bit targets, where `int` is `int64`): the representative of `x` in
`[-2^63, 2^63)`. -/
def int64Wrap (x : Int) : Int := (x + 2 ^ 63) % 2 ^ 64 - 2 ^ 63

/-- Go's `%d` verb on an `int` value: a minus sign followed by the decimal
digits for negative values, plain decimal digits otherwise. -/
def intRepr (x : Int) : String :=
  if x < 0 then "-" ++ decRepr x.natAbs else decRepr x.toNat

/-! ### Handshake client (`SendFileToOtherDevicePrepare`, response handling) -/

/-- The distinct `fmt.Errorf` creation sites of the prepare client's response
handling, one constructor per classification. -/
inductive PrepareError where
  | finishedNoTransfer
  | invalidBody
  | rejected
  | unknownReceiverError
  | otherStatus (code : Nat)
  | decodeFailed
deriving Repr, DecidableEq

/-- The error message produced at each `fmt.Errorf` site. -/
def PrepareError.message : PrepareError → String
  | .finishedNoTransfer => "finished (No file transfer needed)"
  | .invalidBody => "invalid body"
  | .rejected => "rejected"
  | .unknownReceiverError => "unknown error by receiver"
  | .otherStatus code => "failed to send metadata: received status code " ++ decRepr code
  | .decodeFailed => "error decoding response JSON"

/-- Response handling of `SendFileToOtherDevicePrepare`: any non-200 status is
mapped through the `switch` to an error; a 200 body is decoded as a
`PrepareReceiveResponse` (`body = none` models a JSON decode failure). -/
def classifyPrepareResponse (status : Nat) (body : Option PrepareReceiveResponse) :
    Except PrepareError PrepareReceiveResponse :=
  if status ≠ 200 then
    if status = 204 then .error .finishedNoTransfer
    else if status = 400 then .error .invalidBody
    else if status = 403 then .error .rejected
    else if status = 500 then .error .unknownReceiverError
    else .error (.otherStatus status)
  else
    match body with
    | some r => .ok r
    | none => .error .decodeFailed

/-! ### Streaming uploader loop (`SendFile`, the second `filepath.Walk`) -/

/-- The per-file upload loop of `SendFile`: walks the same entries, skips
directories, looks up the token issued for the file's basename, and calls
`uploadFile`. `upload` abstracts `uploadFile`'s outcome on a given path
(network failure, a copy error, or an observed cancellation all yield
`Except.error`). Returns the walk result together with the list of file paths
for which an upload request was actually issued, in order. -/
def sendWalk (tokens : List (String × String)) (upload : String → Except String Unit) :
    List WalkEntry → Except String Unit × List String
  | [] => (.ok (), [])
  | e :: rest =>
    if e.isDir then sendWalk tokens upload rest
    else
      match lookupKey tokens (baseName e.filePath) with
      | none => (.error ("token not found for file: " ++ baseName e.filePath), [])
      | some _ =>
        match upload e.filePath with
        | .error m => (.error ("error uploading file: " ++ m), [e.filePath])
        | .ok () =>
          let r := sendWalk tokens upload rest
          (r.1, e.filePath :: r.2)

/-! ### Handshake server (`PrepareReceive`) -/

/-- The package-level state of `receive.go`: the session counter (a Go `int`,
guarded by `sessionMutex`; its value always lies in the `int64` range
`[-2^63, 2^63)` and `++` wraps on overflow) and the process-wide `fileNames`
map. -/
structure ServerState where
  sessionIDCounter : Int
  fileNames : List (String × String)
deriving Repr, DecidableEq

/-- `fmt.Sprintf "session-%d" n` for the `int` counter. -/
def sessionIDString (n : Int) : String := "session-" ++ intRepr n

/-- Outcome of `PrepareReceive`: a 400 on a body that fails to decode, or the
encoded `PrepareReceiveResponse`. -/
inductive PrepareResult where
  | badRequest
  | ok (resp : PrepareReceiveResponse)
deriving Repr, DecidableEq

/-- Character-list version of the suffix test (structural recursion). -/
def isPrefOfChars : List Char → List Char → Bool
  | [], _ => true
  | _ :: _, [] => false
  | a :: as, b :: bs => a = b && isPrefOfChars as bs

/-- Go `strings.HasSuffix s suffix`. -/
def hasSuffix (s suffix : String) : Bool :=
  isPrefOfChars suffix.data.reverse s.data.reverse

/-- One iteration of the `for fileID, fileInfo := range req.Files` loop:
derive the token, record the filename, and write a `.txt` preview payload to
the clipboard. The accumulator carries (token map, fileNames map, the list of
payloads passed to `clipboard.WriteToClipBoard` so far). -/
def prepareStep (acc : List (String × String) × List (String × String) × List String)
    (entry : String × FileInfo) :
    List (String × String) × List (String × String) × List String :=
  let files := insertKey acc.1 entry.1 ("token-" ++ entry.1)
  let fileNames := insertKey acc.2.1 entry.1 entry.2.fileName
  let clip := if hasSuffix entry.2.fileName ".txt" then acc.2.2 ++ [entry.2.preview] else acc.2.2
  (files, fileNames, clip)

/-- `PrepareReceive`: decode the body (`none` models a decode failure → 400),
allocate the next session id under the mutex (`sessionIDCounter++` is a Go
`int` increment, so it wraps on `int64` overflow), then run the per-file
loop. Returns the new server state, the HTTP outcome, and the clipboard
writes performed during the call. -/
def prepareReceive (st : ServerState) (body : Option PrepareReceiveRequest) :
    ServerState × PrepareResult × List String :=
  match body with
  | none => (st, .badRequest, [])
  | some req =>
    let counter := int64Wrap (st.sessionIDCounter + 1)
    let sessionID := sessionIDString counter
    let acc := req.files.foldl prepareStep ([], st.fileNames, [])
    ({ sessionIDCounter := counter, fileNames := acc.2.1 },
     .ok { sessionID := sessionID, files := acc.1 }, acc.2.2)

/-- The sequence of session counter values allocated by a series of
`PrepareReceive` calls (the mutex serializes the increments, so a run of the
process — concurrent handlers included — is one such linearized sequence).
A body that fails to decode allocates nothing. -/
def issuedTrace (st : ServerState) : List (Option PrepareReceiveRequest) → List Int
  | [] => []
  | body :: rest =>
    match body with
    | none => issuedTrace st rest
    | some req =>
      let st' := (prepareReceive st (some req)).1
      st'.sessionIDCounter :: issuedTrace st' rest

/-! ### Streaming downloader (`ReceiveHandler`) -/

/-- Receiver-side filesystem state: path → file contents. -/
def FS : Type := List (String × String)

/-- Append bytes to an existing (open) file. -/
def fsAppend (fs : FS) (path : String) (data : String) : FS :=
  match lookupKey fs path with
  | some c => insertKey fs path (c ++ data)
  | none => fs

/-- One `r.Body.Read` observed by the background goroutine: either a chunk of
`data` bytes (empty `data` models `n = 0`, i.e. end of stream) whose
`file.Write` fails with `wErr` when that is `some`, or a read error other
than `io.EOF`. -/
inductive ReadEv where
  | chunk (data : String) (wErr : Option String)
  | readErr (msg : String)
deriving Repr, DecidableEq

/-- The background chunk-copy goroutine: reads bounded chunks, writes each
to the destination file, and reports its outcome (`none` on clean completion,
`some msg` on an I/O error) over the `done` channel. -/
def chunkLoop (path : String) : List ReadEv → FS → FS × Option String
  | [], fs => (fs, none)
  | ReadEv.readErr m :: _, fs => (fs, some ("Failed to read file: " ++ m))
  | ReadEv.chunk d w :: rest, fs =>
    if d = "" then (fs, none)
    else
      match w with
      | some m => (fs, some ("Failed to write file: " ++ m))
      | none => chunkLoop path rest (fsAppend fs path d)

/-- Which arm of the handler's `select` fires: either the `done` channel
(the chunk loop ran to completion over the body events `evs`), or `ctx.Done()`
(the request was cancelled after the loop had processed `evs`). -/
inductive HandlerEvent where
  | loopCompleted (evs : List ReadEv)
  | cancelled (evs : List ReadEv)
deriving Repr, DecidableEq

/-- The handler's visible HTTP outcome: an `http.Error`, a bare
`WriteHeader(200)` with no body, or a silent return on cancellation (no status
is written at all). -/
inductive Outcome where
  | httpError (status : Nat) (msg : String)
  | okEmpty
  | cancelledSilent
deriving Repr, DecidableEq

/-- The `select` at the end of `ReceiveHandler`: on a chunk-loop error, answer
500 and delete the partial file; on cancellation, delete the partial file and
return silently; on clean completion, answer 200. -/
def receiveSelect (path : String) (fs : FS) : HandlerEvent → FS × Outcome
  | .loopCompleted evs =>
    let r := chunkLoop path evs fs
    match r.2 with
    | some m => (removeKey r.1 path, .httpError 500 m)
    | none => (r.1, .okEmpty)
  | .cancelled evs =>
    let r := chunkLoop path evs fs
    (removeKey r.1 path, .cancelledSilent)

/-- `ReceiveHandler`: validate that the three query parameters are non-empty,
resolve the destination filename from the process-wide `fileNames` table,
create the `uploads` directory and the (truncated) destination file, then run
the chunk loop / cancellation `select`. `mkdirOk` and `createOk` model the
success of `os.MkdirAll` and `os.Create`. `filepath.Join "uploads" fileName`
is embedded as `"uploads/" ++ fileName`. -/
def receiveHandler (fileNames : List (String × String))
    (sessionID fileID token : String) (mkdirOk createOk : Bool)
    (ev : HandlerEvent) (fs : FS) : FS × Outcome :=
  if sessionID = "" ∨ fileID = "" ∨ token = "" then
    (fs, .httpError 400 "Missing parameters")
  else
    match lookupKey fileNames fileID with
    | none => (fs, .httpError 400 "Invalid file ID")
    | some fileName =>
      let filePath := "uploads/" ++ fileName
      if mkdirOk = false then (fs, .httpError 500 "Failed to create directory")
      else if createOk = false then (fs, .httpError 500 "Failed to create file")
      else receiveSelect filePath (insertKey fs filePath "") ev

/-! ### Helper lemmas about the downloader -/

theorem chunkLoop_keeps (path : String) (evs : List ReadEv) (fs : FS) (c : String)
    (h : lookupKey fs path = some c) :
    ∃ c', lookupKey (chunkLoop path evs fs).1 path = some c' := by
  induction evs generalizing fs c with
  | nil => exact ⟨c, h⟩
  | cons e rest ih =>
    cases e with
    | readErr m => exact ⟨c, h⟩
    | chunk d w =>
      by_cases hd : d = ""
      · exact ⟨c, by simpa [chunkLoop, hd] using h⟩
      · cases w with
        | some m => exact ⟨c, by simpa [chunkLoop, hd] using h⟩
        | none =>
          simp only [chunkLoop, hd, if_false]
          exact ih (fsAppend fs path d) (c ++ d)
            (by simp [fsAppend, h, lookupKey_insertKey_self])

theorem receiveSelect_cancelled (path : String) (fs : FS) (evs : List ReadEv) :
    receiveSelect path fs (.cancelled evs) =
      (removeKey (chunkLoop path evs fs).1 path, .cancelledSilent) := rfl

theorem receiveSelect_loop_err (path : String) (fs : FS) (evs : List ReadEv) (m : String)
    (h : (chunkLoop path evs fs).2 = some m) :
    receiveSelect path fs (.loopCompleted evs) =
      (removeKey (chunkLoop path evs fs).1 path, .httpError 500 m) := by
  simp [receiveSelect, h]

theorem receiveSelect_loop_ok (path : String) (fs : FS) (evs : List ReadEv)
    (h : (chunkLoop path evs fs).2 = none) :
    receiveSelect path fs (.loopCompleted evs) = ((chunkLoop path evs fs).1, .okEmpty) := by
  simp [receiveSelect, h]

theorem receiveHandler_accepted (fn : List (String × String)) (s f t name : String)
    (ev : HandlerEvent) (fs : FS) (hs : s ≠ "") (hf : f ≠ "") (ht : t ≠ "")
    (hname : lookupKey fn f = some name) :
    receiveHandler fn s f t true true ev fs =
      receiveSelect ("uploads/" ++ name) (insertKey fs ("uploads/" ++ name) "") ev := by
  simp [receiveHandler, hs, hf, ht, hname]

/-- C1: the claim says an upload request bearing a token not issued for the
given (session, fileID) pair is rejected 403-class with no destination file
created. The code never compares the token with anything: with the bogus
token "BOGUS" (the issued token for "a.txt" would be "token-a.txt") and a
made-up session id, the handler accepts the transfer, creates
"uploads/a.txt" with the request body, and answers 200. -/
theorem upload_with_wrong_token_accepted :
    receiveHandler [("a.txt", "a.txt")] "session-999" "a.txt" "BOGUS" true true
      (HandlerEvent.loopCompleted [ReadEv.chunk "hello" none]) [] =
    ([("uploads/a.txt", "hello")], Outcome.okEmpty) := rfl

/-- C2: for every execution of the streaming downloader on a known fileID
(non-empty parameters, directory and file creation succeeding): if the
request's cancellation signal fires, the partially written destination file is
deleted and no status is written; if the chunk loop reports an I/O error, the
file is deleted and the handler answers 500 (not 200); if the chunk loop
completes cleanly, the handler answers 200 with no response body and the
destination file is kept. -/
theorem downloader_cleanup_and_success
    (fn : List (String × String)) (s f t name : String) (fs : FS) (ev : HandlerEvent)
    (hs : s ≠ "") (hf : f ≠ "") (ht : t ≠ "")
    (hname : lookupKey fn f = some name) :
    (∀ evs, ev = HandlerEvent.cancelled evs →
      lookupKey (receiveHandler fn s f t true true ev fs).1 ("uploads/" ++ name) = none ∧
      (receiveHandler fn s f t true true ev fs).2 = Outcome.cancelledSilent) ∧
    (∀ evs m, ev = HandlerEvent.loopCompleted evs →
      (chunkLoop ("uploads/" ++ name) evs (insertKey fs ("uploads/" ++ name) "")).2 = some m →
      lookupKey (receiveHandler fn s f t true true ev fs).1 ("uploads/" ++ name) = none ∧
      (receiveHandler fn s f t true true ev fs).2 = Outcome.httpError 500 m) ∧
    (∀ evs, ev = HandlerEvent.loopCompleted evs →
      (chunkLoop ("uploads/" ++ name) evs (insertKey fs ("uploads/" ++ name) "")).2 = none →
      (receiveHandler fn s f t true true ev fs).2 = Outcome.okEmpty ∧
      ∃ c, lookupKey (receiveHandler fn s f t true true ev fs).1 ("uploads/" ++ name) = some c) := by
  rw [receiveHandler_accepted fn s f t name ev fs hs hf ht hname]
  refine ⟨?_, ?_, ?_⟩
  · rintro evs rfl
    rw [receiveSelect_cancelled]
    exact ⟨lookupKey_removeKey_self _ _, rfl⟩
  · rintro evs m rfl hm
    rw [receiveSelect_loop_err _ _ _ _ hm]
    exact ⟨lookupKey_removeKey_self _ _, rfl⟩
  · rintro evs rfl hm
    rw [receiveSelect_loop_ok _ _ _ hm]
    exact ⟨rfl, chunkLoop_keeps _ _ _ "" (lookupKey_insertKey_self _ _ _)⟩

/-- C2 witness: a concrete cancelled transfer ends with no destination file
and no status written, and a concrete clean transfer ends with a 200. -/
theorem downloader_cleanup_and_success_witness :
    lookupKey
      (receiveHandler [("a.txt", "a.txt")] "session-1" "a.txt" "token-a.txt" true true
        (HandlerEvent.cancelled [ReadEv.chunk "par" none]) []).1 "uploads/a.txt" = none ∧
    (receiveHandler [("a.txt", "a.txt")] "session-1" "a.txt" "token-a.txt" true true
      (HandlerEvent.cancelled [ReadEv.chunk "par" none]) []).2 = Outcome.cancelledSilent := by
  exact (downloader_cleanup_and_success [("a.txt", "a.txt")] "session-1" "a.txt" "token-a.txt"
    "a.txt" [] (HandlerEvent.cancelled [ReadEv.chunk "par" none])
    (by decide) (by decide) (by decide) rfl).1 [ReadEv.chunk "par" none] rfl

/-- C9: the receive handler's outcome is invariant under changing the
(non-empty) sessionId and token query parameters: two upload requests that
differ only in those values take the same branch and produce the same
filesystem effect and HTTP outcome. -/
theorem receive_independent_of_session_and_token
    (fn : List (String × String)) (f s1 t1 s2 t2 : String)
    (mkdirOk createOk : Bool) (ev : HandlerEvent) (fs : FS)
    (hs1 : s1 ≠ "") (ht1 : t1 ≠ "") (hs2 : s2 ≠ "") (ht2 : t2 ≠ "") :
    receiveHandler fn s1 f t1 mkdirOk createOk ev fs =
    receiveHandler fn s2 f t2 mkdirOk createOk ev fs := by
  simp [receiveHandler, hs1, ht1, hs2, ht2]

/-- C9 witness: a concrete pair of requests differing only in session and
token values produce identical results. -/
theorem receive_independent_of_session_and_token_witness :
    receiveHandler [("a.txt", "a.txt")] "session-7" "a.txt" "AAAA" true true
      (HandlerEvent.loopCompleted [ReadEv.chunk "zz" none]) [] =
    receiveHandler [("a.txt", "a.txt")] "whatever" "a.txt" "BBBB" true true
      (HandlerEvent.loopCompleted [ReadEv.chunk "zz" none]) [] := by
  exact receive_independent_of_session_and_token [("a.txt", "a.txt")] "a.txt"
    "session-7" "AAAA" "whatever" "BBBB" true true
    (HandlerEvent.loopCompleted [ReadEv.chunk "zz" none]) []
    (by decide) (by decide) (by decide) (by decide)

/-- C10: the handler truncates the destination file at the start of every
accepted upload (`os.Create`), so when a destination file with pre-existing
content from an earlier transfer exists and a later upload for the same
fileID errors or is cancelled, no file remains at that path afterwards: the
pre-existing content is destroyed, not restored. -/
theorem preexisting_file_destroyed_on_failed_reupload
    (fn : List (String × String)) (s f t name c : String) (fs : FS) (ev : HandlerEvent)
    (hs : s ≠ "") (hf : f ≠ "") (ht : t ≠ "")
    (hname : lookupKey fn f = some name)
    (hold : lookupKey fs ("uploads/" ++ name) = some c)
    (hev : (∃ evs, ev = HandlerEvent.cancelled evs) ∨
           (∃ evs m, ev = HandlerEvent.loopCompleted evs ∧
             (chunkLoop ("uploads/" ++ name) evs
               (insertKey fs ("uploads/" ++ name) "")).2 = some m)) :
    lookupKey (receiveHandler fn s f t true true ev fs).1 ("uploads/" ++ name) = none := by
  rw [receiveHandler_accepted fn s f t name ev fs hs hf ht hname]
  rcases hev with ⟨evs, rfl⟩ | ⟨evs, m, rfl, hm⟩
  · rw [receiveSelect_cancelled]
    exact lookupKey_removeKey_self _ _
  · rw [receiveSelect_loop_err _ _ _ _ hm]
    exact lookupKey_removeKey_self _ _

/-- C10 witness: "uploads/a.txt" holds "old" from an earlier transfer; a
re-upload for "a.txt" that hits a read error leaves no file at that path. -/
theorem preexisting_file_destroyed_on_failed_reupload_witness :
    lookupKey
      (receiveHandler [("a.txt", "a.txt")] "session-2" "a.txt" "token-a.txt" true true
        (HandlerEvent.loopCompleted [ReadEv.readErr "conn reset"])
        [("uploads/a.txt", "old")]).1 "uploads/a.txt" = none := by
  exact preexisting_file_destroyed_on_failed_reupload [("a.txt", "a.txt")] "session-2"
    "a.txt" "token-a.txt" "a.txt" "old" [("uploads/a.txt", "old")]
    (HandlerEvent.loopCompleted [ReadEv.readErr "conn reset"])
    (by decide) (by decide) (by decide) rfl rfl
    (Or.inr ⟨[ReadEv.readErr "conn reset"], "Failed to read file: conn reset", rfl, rfl⟩)

/-! ### Handshake-server lemmas -/

/-- A concrete device description used for concrete handshake requests. -/
def infoEx : Info :=
  { alias' := "alice", version := "2.0", deviceModel := "m", deviceType := "desktop"
    fingerprint := "fp", port := 53317, protocol := "https", download := true }

theorem prepareStep_foldl_clip (l : List (String × FileInfo))
    (accF accN : List (String × String)) (accC : List String) :
    (l.foldl prepareStep (accF, accN, accC)).2.2 =
      accC ++ (l.filter (fun p => hasSuffix p.2.fileName ".txt")).map (fun p => p.2.preview) := by
  induction l generalizing accF accN accC with
  | nil => simp
  | cons p rest ih =>
    cases h : hasSuffix p.2.fileName ".txt" with
    | true => simp [prepareStep, h, ih, List.filter_cons]
    | false => simp [prepareStep, h, ih, List.filter_cons]

/-- C4 counterexample: a manifest entry for "note.txt" with an EMPTY preview
payload still causes one clipboard write (of the empty payload) during
handshake processing, refuting "entries with an empty preview cause no
clipboard write". -/
theorem empty_preview_still_written_to_clipboard :
    (prepareReceive { sessionIDCounter := 0, fileNames := [] }
      (some { info := infoEx,
              files := [("note.txt",
                { id := "note.txt", fileName := "note.txt", size := 3,
                  fileType := ".txt", sha256 := "h", preview := "" })] })).2.2 = [""] := rfl

/-- C4 amended: during handshake processing the clipboard receives, in
iteration order, exactly one write per manifest entry whose filename ends in
".txt" — whether or not the preview payload is empty — and the payload written
is exactly that entry's preview; entries whose filename does not end in ".txt"
cause no clipboard write. The writes happen synchronously inside
`PrepareReceive`, before any byte transfer. -/
theorem clipboard_writes_are_txt_previews (st : ServerState) (req : PrepareReceiveRequest) :
    (prepareReceive st (some req)).2.2 =
      (req.files.filter (fun p => hasSuffix p.2.fileName ".txt")).map (fun p => p.2.preview) := by
  have h := prepareStep_foldl_clip req.files [] st.fileNames []
  simpa [prepareReceive] using h

/-- The insertion of a fresh key appends the binding at the end. -/
theorem insertKey_not_mem {α : Type} (m : List (String × α)) (k : String) (v : α)
    (h : k ∉ mapKeys m) : insertKey m k v = m ++ [(k, v)] := by
  induction m with
  | nil => simp [insertKey]
  | cons p rest ih =>
    obtain ⟨k0, v0⟩ := p
    have hk : ¬ k0 = k := by
      intro hk
      exact h (by simp [mapKeys, hk])
    simp only [insertKey, hk, if_false, List.cons_append, List.cons.injEq, true_and]
    exact ih (fun hm => h (by simp [mapKeys] at hm ⊢; exact Or.inr hm))

theorem prepareStep_foldl_files (l : List (String × FileInfo))
    (accF accN : List (String × String)) (accC : List String)
    (hfresh : ∀ k ∈ l.map Prod.fst, k ∉ mapKeys accF)
    (hnd : (l.map Prod.fst).Nodup) :
    (l.foldl prepareStep (accF, accN, accC)).1 =
      accF ++ l.map (fun p => (p.1, "token-" ++ p.1)) := by
  induction l generalizing accF accN accC with
  | nil => simp
  | cons p rest ih =>
    have hp : p.1 ∉ mapKeys accF := hfresh p.1 (by simp)
    have hF : (prepareStep (accF, accN, accC) p).1 = accF ++ [(p.1, "token-" ++ p.1)] := by
      simp [prepareStep, insertKey_not_mem accF p.1 _ hp]
    have hsurj : prepareStep (accF, accN, accC) p =
        ((prepareStep (accF, accN, accC) p).1,
         (prepareStep (accF, accN, accC) p).2.1,
         (prepareStep (accF, accN, accC) p).2.2) := rfl
    have hrest : ∀ k ∈ rest.map Prod.fst,
        k ∉ mapKeys (accF ++ [(p.1, "token-" ++ p.1)]) := by
      intro k hk hmem
      rw [mapKeys, List.map_append] at hmem
      rcases List.mem_append.mp hmem with h1 | h1
      · exact hfresh k (by simp [hk]) h1
      · have hkp : k = p.1 := by simpa using h1
        exact (List.nodup_cons.mp hnd).1 (hkp ▸ hk)
    have hrec := ih (accF ++ [(p.1, "token-" ++ p.1)])
      (prepareStep (accF, accN, accC) p).2.1 (prepareStep (accF, accN, accC) p).2.2
      hrest (List.nodup_cons.mp hnd).2
    simp only [List.foldl_cons]
    rw [hsurj, hF, hrec, List.append_assoc]
    simp

/-- C8: for every manifest accepted by the handshake server (decoded request
with the Go-map guarantee of pairwise-distinct file ids), the response is the
newly allocated session id together with a token map holding exactly one
token per manifest file id, each deterministically derived as
`"token-" ++ fileID`. -/
theorem prepare_response_tokens (st : ServerState) (req : PrepareReceiveRequest)
    (hnd : (req.files.map Prod.fst).Nodup) :
    (prepareReceive st (some req)).2.1 =
      PrepareResult.ok
        { sessionID := sessionIDString (int64Wrap (st.sessionIDCounter + 1))
          files := req.files.map (fun p => (p.1, "token-" ++ p.1)) } := by
  have h := prepareStep_foldl_files req.files [] st.fileNames []
    (by intro k _ hk; simp [mapKeys] at hk) hnd
  simp only [prepareReceive]
  rw [h]
  rfl

/-- C8 witness: a concrete two-file manifest gets session id
`session-1` and the two derived tokens. -/
theorem prepare_response_tokens_witness :
    (prepareReceive { sessionIDCounter := 0, fileNames := [] }
      (some { info := infoEx,
              files := [("a.txt",
                { id := "a.txt", fileName := "a.txt", size := 1,
                  fileType := ".txt", sha256 := "h1", preview := "p" }),
                ("b.bin",
                { id := "b.bin", fileName := "b.bin", size := 2,
                  fileType := ".bin", sha256 := "h2", preview := "" })] })).2.1 =
      PrepareResult.ok
        { sessionID := sessionIDString 1
          files := [("a.txt", "token-a.txt"), ("b.bin", "token-b.bin")] } := by
  rw [prepare_response_tokens { sessionIDCounter := 0, fileNames := [] } _ (by decide)]
  decide

/-! ### Handshake-client lemmas -/

/-- C6 counterexample: the claim says a 204 response yields a terminal
"no transfer required" outcome DISTINCT FROM AN ERROR. In the code the 204
branch executes `fmt.Errorf("finished (No file transfer needed)")`: the
outcome is an error value like every other failure, distinguishable only by
its classification, so the prepare client's caller treats it as a failure. -/
theorem status_204_is_an_error_outcome :
    classifyPrepareResponse 204
        (some { sessionID := "session-1", files := [] }) =
      Except.error PrepareError.finishedNoTransfer := rfl

/-- C6 amended: a 204 response yields an error outcome carrying the dedicated
"finished (No file transfer needed)" classification — an error like the other
failures, not a distinct non-error outcome; 400, 403, 500 and any other
non-200 status map to their own distinct classifications (the generic one
carrying the status code), the four fixed messages are pairwise distinct, and
only a 200 response is decoded as a PrepareResponse. -/
theorem prepare_status_classification :
    (∀ b, classifyPrepareResponse 204 b = Except.error PrepareError.finishedNoTransfer) ∧
    (∀ b, classifyPrepareResponse 400 b = Except.error PrepareError.invalidBody) ∧
    (∀ b, classifyPrepareResponse 403 b = Except.error PrepareError.rejected) ∧
    (∀ b, classifyPrepareResponse 500 b = Except.error PrepareError.unknownReceiverError) ∧
    (∀ s b, s ≠ 200 → s ≠ 204 → s ≠ 400 → s ≠ 403 → s ≠ 500 →
      classifyPrepareResponse s b = Except.error (PrepareError.otherStatus s)) ∧
    (∀ r, classifyPrepareResponse 200 (some r) = Except.ok r) ∧
    (classifyPrepareResponse 200 none = Except.error PrepareError.decodeFailed) ∧
    (∀ s b r, classifyPrepareResponse s b = Except.ok r → s = 200 ∧ b = some r) ∧
    List.Pairwise (· ≠ ·)
      [PrepareError.finishedNoTransfer.message, PrepareError.invalidBody.message,
       PrepareError.rejected.message, PrepareError.unknownReceiverError.message] := by
  refine ⟨?_, ?_, ?_, ?_, ?_, fun r => rfl, rfl, ?_, ?_⟩
  · intro b
    simp [classifyPrepareResponse]
  · intro b
    simp [classifyPrepareResponse]
  · intro b
    simp [classifyPrepareResponse]
  · intro b
    simp [classifyPrepareResponse]
  · intro s b hs h204 h400 h403 h500
    simp [classifyPrepareResponse, hs, h204, h400, h403, h500]
  · intro s b r h
    by_cases hs : s = 200
    · subst hs
      cases b with
      | none => simp [classifyPrepareResponse] at h
      | some rb =>
        simp only [classifyPrepareResponse, ne_eq, not_true_eq_false, if_false] at h
        cases h
        exact ⟨rfl, rfl⟩
    · simp only [classifyPrepareResponse, hs, ne_eq, not_false_eq_true, if_true] at h
      repeat' split at h
      all_goals cases h
  · set_option maxRecDepth 10000 in decide

/-- C6 amended witness: status 418 is classified as the generic failure
carrying the status code. -/
theorem prepare_status_classification_witness :
    classifyPrepareResponse 418 none = Except.error (PrepareError.otherStatus 418) := by
  exact prepare_status_classification.2.2.2.2.1 418 none
    (by decide) (by decide) (by decide) (by decide) (by decide)

/-! ### Uploader-loop lemmas -/

/-- C5: in a multi-file send operation the upload requests are issued one at
a time, in walk (manifest) iteration order — the list of requested paths is
always an in-order front of the eligible (non-directory) files — and on the
first per-file upload failure (a network error or an observed cancellation of
file k) the whole walk aborts: the requested list stops at the failing file,
so files after it are never requested. -/
theorem upload_sequential_abort (tokens : List (String × String))
    (upload : String → Except String Unit) :
    (∀ es, ∃ k, (sendWalk tokens upload es).2 =
      ((es.filter (fun e => !e.isDir)).map WalkEntry.filePath).take k) ∧
    (∀ pre f post m,
      (∀ e ∈ pre, e.isDir = false →
        (∃ tk, lookupKey tokens (baseName e.filePath) = some tk) ∧
        upload e.filePath = Except.ok ()) →
      f.isDir = false →
      (∃ tk, lookupKey tokens (baseName f.filePath) = some tk) →
      upload f.filePath = Except.error m →
      (sendWalk tokens upload (pre ++ f :: post)).1 =
        Except.error ("error uploading file: " ++ m) ∧
      (sendWalk tokens upload (pre ++ f :: post)).2 =
        (pre.filter (fun e => !e.isDir)).map WalkEntry.filePath ++ [f.filePath]) := by
  constructor
  · intro es
    induction es with
    | nil => exact ⟨0, rfl⟩
    | cons e rest ih =>
      cases hdir : e.isDir with
      | true =>
        obtain ⟨k, hk⟩ := ih
        exact ⟨k, by simp [sendWalk, hdir, hk]⟩
      | false =>
        cases hlook : lookupKey tokens (baseName e.filePath) with
        | none => exact ⟨0, by simp [sendWalk, hdir, hlook]⟩
        | some tk =>
          cases hup : upload e.filePath with
          | error m => exact ⟨1, by simp [sendWalk, hdir, hlook, hup, List.filter_cons]⟩
          | ok u =>
            obtain ⟨k, hk⟩ := ih
            exact ⟨k + 1, by simp [sendWalk, hdir, hlook, hup, List.filter_cons, hk]⟩
  · intro pre f post m hpre hf htok hup
    induction pre with
    | nil =>
      obtain ⟨tk, htk⟩ := htok
      constructor
      · simp [sendWalk, hf, htk, hup]
      · simp [sendWalk, hf, htk, hup]
    | cons e pre' ih =>
      have htail : ∀ e' ∈ pre', e'.isDir = false →
          (∃ tk, lookupKey tokens (baseName e'.filePath) = some tk) ∧
          upload e'.filePath = Except.ok () :=
        fun e' he' => hpre e' (List.mem_cons_of_mem _ he')
      cases hdir : e.isDir with
      | true =>
        have := ih htail
        constructor
        · simpa [sendWalk, hdir] using this.1
        · simp only [List.cons_append, sendWalk, hdir, if_true]
          simpa [List.filter_cons, hdir] using this.2
      | false =>
        obtain ⟨⟨tk, htk⟩, hok⟩ := hpre e (by simp) hdir
        have := ih htail
        constructor
        · simpa [sendWalk, hdir, htk, hok] using this.1
        · simp [sendWalk, hdir, htk, hok, List.filter_cons, this.2]

/-- C5 witness: with tokens for "a.txt" and "b.txt" and an upload that fails
on "x/a.txt", walking [x (dir), x/a.txt, x/b.txt] issues the single request
for "x/a.txt", aborts with the wrapped error, and never requests "x/b.txt". -/
theorem upload_sequential_abort_witness :
    (sendWalk [("a.txt", "token-a.txt"), ("b.txt", "token-b.txt")]
        (fun p => if p = "x/a.txt" then Except.error "Transfer cancelled" else Except.ok ())
        [{ filePath := "x", isDir := true, size := 0 },
         { filePath := "x/a.txt", isDir := false, size := 3 },
         { filePath := "x/b.txt", isDir := false, size := 4 }]).1 =
      Except.error ("error uploading file: " ++ "Transfer cancelled") ∧
    (sendWalk [("a.txt", "token-a.txt"), ("b.txt", "token-b.txt")]
        (fun p => if p = "x/a.txt" then Except.error "Transfer cancelled" else Except.ok ())
        [{ filePath := "x", isDir := true, size := 0 },
         { filePath := "x/a.txt", isDir := false, size := 3 },
         { filePath := "x/b.txt", isDir := false, size := 4 }]).2 =
      ["x/a.txt"] := by
  have h := (upload_sequential_abort [("a.txt", "token-a.txt"), ("b.txt", "token-b.txt")]
      (fun p => if p = "x/a.txt" then Except.error "Transfer cancelled" else Except.ok ())).2
    [{ filePath := "x", isDir := true, size := 0 }]
    { filePath := "x/a.txt", isDir := false, size := 3 }
    [{ filePath := "x/b.txt", isDir := false, size := 4 }]
    "Transfer cancelled"
    (by intro e he hdir; simp at he; rw [he] at hdir; simp at hdir)
    rfl ⟨"token-a.txt", rfl⟩ rfl
  exact ⟨h.1, by simpa using h.2⟩

/-! ### Manifest-builder lemmas -/

theorem buildManifest_fold_lookup (hash : String → String) (es : List WalkEntry)
    (m : List (String × FileInfo)) (b : String) :
    lookupKey
        (es.foldl
          (fun m e => if e.isDir then m else insertKey m (baseName e.filePath) (mkFileInfo hash e))
          m) b =
      match (es.filter (fun e => !e.isDir && (baseName e.filePath == b))).getLast? with
      | some e => some (mkFileInfo hash e)
      | none => lookupKey m b := by
  induction es generalizing m with
  | nil => simp
  | cons e rest ih =>
    simp only [List.foldl_cons]
    rw [ih]
    rw [List.filter_cons]
    cases hdir : e.isDir with
    | true =>
      simp only [hdir, Bool.not_true, Bool.false_and, if_true, if_false]
      cases hfil : rest.filter (fun e => !e.isDir && (baseName e.filePath == b)) with
      | nil => simp
      | cons x xs => rfl
    | false =>
      simp only [hdir, Bool.not_false, Bool.true_and, if_false]
      cases hbn : baseName e.filePath == b with
      | true =>
        have hb : baseName e.filePath = b := by simpa using hbn
        cases hfil : rest.filter (fun e => !e.isDir && (baseName e.filePath == b)) with
        | nil =>
          simp only [hfil, if_true]
          subst hb
          simp [lookupKey_insertKey_self]
        | cons x xs =>
          simp only [hfil, if_true, List.getLast?_cons_cons]
          obtain ⟨y, hy⟩ := Option.isSome_iff_exists.mp
            (by simp : ((x :: xs).getLast?).isSome = true)
          rw [hy]
      | false =>
        have hb : baseName e.filePath ≠ b := by simpa using hbn
        cases hfil : rest.filter (fun e => !e.isDir && (baseName e.filePath == b)) with
        | nil => simp [hfil, lookupKey_insertKey_ne _ _ _ _ hb]
        | cons x xs =>
          obtain ⟨y, hy⟩ := Option.isSome_iff_exists.mp
            (by simp : ((x :: xs).getLast?).isSome = true)
          simp [hy]

theorem buildManifest_fold_mem (hash : String → String) (es : List WalkEntry) :
    ∀ (m : List (String × FileInfo)),
      (∀ p ∈ m, p.2.id = p.1 ∧ p.2.fileName = p.1) →
      ∀ p ∈ es.foldl
          (fun m e => if e.isDir then m else insertKey m (baseName e.filePath) (mkFileInfo hash e))
          m,
        p.2.id = p.1 ∧ p.2.fileName = p.1 := by
  induction es with
  | nil => exact fun m hm => hm
  | cons e rest ih =>
    intro m hm
    simp only [List.foldl_cons]
    apply ih
    intro p hp
    by_cases hdir : e.isDir = true
    · rw [if_pos hdir] at hp
      exact hm p hp
    · rw [if_neg hdir] at hp
      rcases mem_insertKey _ _ _ _ hp with h1 | h1
      · rw [h1]
        exact ⟨rfl, rfl⟩
      · exact hm p h1

theorem buildManifest_fold_nodup (hash : String → String) (es : List WalkEntry) :
    ∀ (m : List (String × FileInfo)), (mapKeys m).Nodup →
      (mapKeys
        (es.foldl
          (fun m e => if e.isDir then m else insertKey m (baseName e.filePath) (mkFileInfo hash e))
          m)).Nodup := by
  induction es with
  | nil => exact fun m hm => hm
  | cons e rest ih =>
    intro m hm
    simp only [List.foldl_cons]
    apply ih
    by_cases hdir : e.isDir = true
    · rw [if_pos hdir]
      exact hm
    · rw [if_neg hdir]
      exact nodup_mapKeys_insertKey _ _ _ hm

/-- C7: in every built manifest each entry's id and filename equal the entry's
map key, which is the visited file's basename; looking up any basename yields
the metadata (size, extension, content hash) of the LAST visited regular file
with that basename (last-write-wins on basename collisions), and the manifest
holds at most one entry per basename (nodup keys). -/
theorem manifest_basename_lastwins (hash : String → String) (entries : List WalkEntry)
    (b : String) :
    lookupKey (buildManifest hash entries) b =
      Option.map (mkFileInfo hash)
        ((entries.filter (fun e => !e.isDir && (baseName e.filePath == b))).getLast?) ∧
    (∀ p ∈ buildManifest hash entries, p.2.id = p.1 ∧ p.2.fileName = p.1) ∧
    (mapKeys (buildManifest hash entries)).Nodup := by
  refine ⟨?_, ?_, ?_⟩
  · rw [buildManifest, buildManifest_fold_lookup]
    cases (entries.filter (fun e => !e.isDir && (baseName e.filePath == b))).getLast? with
    | none => rfl
    | some e => rfl
  · exact buildManifest_fold_mem hash entries [] (by intro p hp; simp at hp)
  · exact buildManifest_fold_nodup hash entries [] (by simp [mapKeys])

/-- C7 witness: the colliding files "x/a.txt" and "y/a.txt" produce a manifest
whose single "a.txt" entry carries the metadata of the later-visited
"y/a.txt" (size 2), with id and filename equal to the basename. -/
theorem manifest_basename_lastwins_witness :
    lookupKey
        (buildManifest (fun p => "digest-" ++ p)
          [{ filePath := "x/a.txt", isDir := false, size := 1 },
           { filePath := "y/a.txt", isDir := false, size := 2 }]) "a.txt" =
      some { id := "a.txt", fileName := "a.txt", size := 2, fileType := ".txt",
             sha256 := "digest-" ++ "y/a.txt", preview := "" } := by
  rw [(manifest_basename_lastwins (fun p => "digest-" ++ p)
    [{ filePath := "x/a.txt", isDir := false, size := 1 },
     { filePath := "y/a.txt", isDir := false, size := 2 }] "a.txt").1]
  rfl

/-! ### Injectivity of the session-id rendering -/

theorem decDigitsGo_eq_digits : ∀ f n, n ≤ f → decDigitsGo f n = Nat.digits 10 n := by
  intro f
  induction f with
  | zero =>
    intro n hn
    have hz : n = 0 := Nat.le_zero.mp hn
    subst hz
    simp [decDigitsGo]
  | succ f ih =>
    intro n hn
    cases n with
    | zero => simp [decDigitsGo]
    | succ m =>
      have hdiv : (m + 1) / 10 ≤ f := by
        have hlt : (m + 1) / 10 < m + 1 := Nat.div_lt_self (Nat.succ_pos m) (by norm_num)
        omega
      show ((m + 1) % 10) :: decDigitsGo f ((m + 1) / 10) = Nat.digits 10 (m + 1)
      rw [ih _ hdiv, Nat.digits_def' (by norm_num : (1 : ℕ) < 10) (Nat.succ_pos m)]

theorem digitChar_inj_lt :
    ∀ a < 10, ∀ b < 10, Nat.digitChar a = Nat.digitChar b → a = b := by decide

theorem map_digitChar_inj : ∀ (l1 l2 : List Nat), (∀ x ∈ l1, x < 10) → (∀ x ∈ l2, x < 10) →
    l1.map Nat.digitChar = l2.map Nat.digitChar → l1 = l2 := by
  intro l1
  induction l1 with
  | nil =>
    intro l2 _ _ h
    cases l2 with
    | nil => rfl
    | cons b bs => simp at h
  | cons a as ih =>
    intro l2 h1 h2 h
    cases l2 with
    | nil => simp at h
    | cons b bs =>
      simp only [List.map_cons, List.cons.injEq] at h
      have hab : a = b := digitChar_inj_lt a (h1 a (by simp)) b (h2 b (by simp)) h.1
      have hrest := ih bs (fun x hx => h1 x (by simp [hx])) (fun x hx => h2 x (by simp [hx])) h.2
      rw [hab, hrest]

theorem string_data_append (a b : String) : (a ++ b).data = a.data ++ b.data := by
  cases a
  cases b
  rfl

theorem string_ext (a b : String) (h : a.data = b.data) : a = b := by
  cases a
  cases b
  exact congrArg String.mk h

theorem decRepr_digits_eq (m n : Nat) (hm : m ≠ 0) (hn : n ≠ 0)
    (h : decRepr m = decRepr n) : Nat.digits 10 m = Nat.digits 10 n := by
  rw [decRepr, decRepr, if_neg hm, if_neg hn] at h
  have hdd : ((decDigitsGo m m).map Nat.digitChar).reverse =
      ((decDigitsGo n n).map Nat.digitChar).reverse := congrArg String.data h
  have hrev : (decDigitsGo m m).map Nat.digitChar = (decDigitsGo n n).map Nat.digitChar := by
    have := congrArg List.reverse hdd
    simpa [List.reverse_reverse] using this
  rw [decDigitsGo_eq_digits m m (Nat.le_refl m), decDigitsGo_eq_digits n n (Nat.le_refl n)] at hrev
  exact map_digitChar_inj _ _
    (fun x hx => Nat.digits_lt_base (by norm_num) hx)
    (fun x hx => Nat.digits_lt_base (by norm_num) hx) hrev

theorem decRepr_ne_zero_str (n : Nat) (hn : n ≠ 0) : decRepr n ≠ "0" := by
  intro h
  rw [decRepr, if_neg hn] at h
  have hdd : ((decDigitsGo n n).map Nat.digitChar).reverse = ['0'] := congrArg String.data h
  have hrev : (decDigitsGo n n).map Nat.digitChar = ['0'] := by
    have := congrArg List.reverse hdd
    simpa [List.reverse_reverse] using this
  rw [decDigitsGo_eq_digits n n (Nat.le_refl n)] at hrev
  have hd : Nat.digits 10 n = [0] := by
    have h0lt : (0 : ℕ) < 10 := by norm_num
    have : Nat.digits 10 n = [0] :=
      map_digitChar_inj (Nat.digits 10 n) [0]
        (fun x hx => Nat.digits_lt_base (by norm_num) hx)
        (fun x hx => by simp at hx; omega)
        (by simpa using hrev)
    exact this
  have := Nat.ofDigits_digits 10 n
  rw [hd] at this
  simp [Nat.ofDigits] at this
  exact hn this.symm

theorem decRepr_injective (m n : Nat) (h : decRepr m = decRepr n) : m = n := by
  by_cases hm : m = 0
  · by_cases hn : n = 0
    · rw [hm, hn]
    · exfalso
      apply decRepr_ne_zero_str n hn
      rw [← h, hm]
      rfl
  · by_cases hn : n = 0
    · exfalso
      apply decRepr_ne_zero_str m hm
      rw [h, hn]
      rfl
    · have hd := decRepr_digits_eq m n hm hn h
      have h1 := Nat.ofDigits_digits 10 m
      have h2 := Nat.ofDigits_digits 10 n
      rw [← h1, ← h2, hd]

theorem intRepr_inj_nonneg (x y : Int) (hx : 0 ≤ x) (hy : 0 ≤ y)
    (h : intRepr x = intRepr y) : x = y := by
  rw [intRepr, if_neg (not_lt.mpr hx), intRepr, if_neg (not_lt.mpr hy)] at h
  have := decRepr_injective _ _ h
  omega

theorem sessionIDString_inj_nonneg (x y : Int) (hx : 0 ≤ x) (hy : 0 ≤ y)
    (h : sessionIDString x = sessionIDString y) : x = y := by
  apply intRepr_inj_nonneg x y hx hy
  apply string_ext
  have hdata := congrArg String.data h
  rw [sessionIDString, sessionIDString, string_data_append, string_data_append] at hdata
  exact List.append_cancel_left hdata

/-! ### Session-trace lemmas -/

theorem int64Wrap_eq_self (x : Int) (h1 : -2 ^ 63 ≤ x) (h2 : x < 2 ^ 63) :
    int64Wrap x = x := by
  have hmod : (x + 2 ^ 63) % 2 ^ 64 = x + 2 ^ 63 :=
    Int.emod_eq_of_lt (by omega) (by omega)
  rw [int64Wrap, hmod]
  omega

theorem issuedTrace_cons_some (st : ServerState) (req : PrepareReceiveRequest)
    (rest : List (Option PrepareReceiveRequest)) :
    issuedTrace st (some req :: rest) =
      int64Wrap (st.sessionIDCounter + 1) ::
        issuedTrace (prepareReceive st (some req)).1 rest := rfl

theorem issuedTrace_cons_none (st : ServerState)
    (rest : List (Option PrepareReceiveRequest)) :
    issuedTrace st (none :: rest) = issuedTrace st rest := rfl

theorem prepareReceive_counter (st : ServerState) (req : PrepareReceiveRequest) :
    (prepareReceive st (some req)).1.sessionIDCounter =
      int64Wrap (st.sessionIDCounter + 1) := rfl

/-- The number of successful (decoded) handshakes in a call sequence. -/
def countDecoded (bodies : List (Option PrepareReceiveRequest)) : Nat :=
  (bodies.filter (fun b => b.isSome)).length

theorem countDecoded_cons_some (req : PrepareReceiveRequest)
    (rest : List (Option PrepareReceiveRequest)) :
    countDecoded (some req :: rest) = countDecoded rest + 1 := by
  simp [countDecoded]

theorem countDecoded_cons_none (rest : List (Option PrepareReceiveRequest)) :
    countDecoded (none :: rest) = countDecoded rest := by
  simp [countDecoded]

theorem issuedTrace_no_overflow (bodies : List (Option PrepareReceiveRequest)) :
    ∀ st : ServerState, 0 ≤ st.sessionIDCounter →
      st.sessionIDCounter + (countDecoded bodies : Int) < 2 ^ 63 →
      (∀ n ∈ issuedTrace st bodies,
        st.sessionIDCounter < n ∧
        n ≤ st.sessionIDCounter + (countDecoded bodies : Int)) ∧
      List.Pairwise (· < ·) (issuedTrace st bodies) := by
  induction bodies with
  | nil =>
    intro st _ _
    exact ⟨by intro n hn; simp [issuedTrace] at hn, by simp [issuedTrace]⟩
  | cons b rest ih =>
    intro st h0 hb
    cases b with
    | none =>
      rw [issuedTrace_cons_none]
      rw [countDecoded_cons_none] at hb ⊢
      exact ih st h0 hb
    | some req =>
      rw [countDecoded_cons_some] at hb ⊢
      have hwrap : int64Wrap (st.sessionIDCounter + 1) = st.sessionIDCounter + 1 :=
        int64Wrap_eq_self _ (by omega) (by push_cast at hb ⊢; omega)
      have hcount : (prepareReceive st (some req)).1.sessionIDCounter =
          st.sessionIDCounter + 1 := by rw [prepareReceive_counter, hwrap]
      have hrec := ih (prepareReceive st (some req)).1
        (by rw [hcount]; omega)
        (by rw [hcount]; push_cast at hb ⊢; omega)
      rw [issuedTrace_cons_some, hwrap]
      constructor
      · intro n hn
        rcases List.mem_cons.mp hn with h | h
        · subst h
          push_cast
          omega
        · have := hrec.1 n h
          rw [hcount] at this
          push_cast at this ⊢
          omega
      · refine List.pairwise_cons.mpr ⟨?_, hrec.2⟩
        intro n hn
        have := (hrec.1 n hn).1
        rw [hcount] at this
        omega

/-- The counter value reached after `k` successful handshakes starting from
counter value `c`: `k` wrapped `int` increments. -/
def iterCounter (c : Int) : Nat → Int
  | 0 => c
  | k + 1 => int64Wrap (iterCounter c k + 1)

theorem iterCounter_succ (c : Int) (k : Nat) :
    iterCounter c (k + 1) = int64Wrap (iterCounter c k + 1) := rfl

theorem iterCounter_shift (c : Int) :
    ∀ k, iterCounter (int64Wrap (c + 1)) k = iterCounter c (k + 1) := by
  intro k
  induction k with
  | zero => rfl
  | succ k ih =>
    rw [iterCounter_succ, ih]
    exact (iterCounter_succ c (k + 1)).symm

theorem issuedTrace_replicate (req : PrepareReceiveRequest) :
    ∀ (k : Nat) (st : ServerState),
      issuedTrace st (List.replicate k (some req)) =
        (List.range k).map (fun i => iterCounter st.sessionIDCounter (i + 1)) := by
  intro k
  induction k with
  | zero => intro st; simp [issuedTrace]
  | succ k ih =>
    intro st
    rw [List.replicate_succ, issuedTrace_cons_some, ih, List.range_succ_eq_map]
    simp only [List.map_cons, List.map_map]
    refine congrArg₂ List.cons rfl ?_
    apply List.map_congr_left
    intro i _
    show iterCounter (prepareReceive st (some req)).1.sessionIDCounter (i + 1) =
      iterCounter st.sessionIDCounter (i + 1 + 1)
    rw [prepareReceive_counter, iterCounter_shift]

theorem iterCounter_id_below : ∀ k : Nat, (k : Int) ≤ 2 ^ 63 - 1 →
    iterCounter 0 k = (k : Int) := by
  intro k
  induction k with
  | zero => intro _; rfl
  | succ k ih =>
    intro hk
    rw [iterCounter_succ, ih (by push_cast at hk ⊢; omega),
      int64Wrap_eq_self _ (by push_cast at hk ⊢; omega) (by push_cast at hk ⊢; omega)]
    push_cast
    ring

/-- A concrete decodable handshake request with an empty manifest. -/
def reqEmpty : PrepareReceiveRequest := { info := infoEx, files := [] }

/-- C3 counterexample: the claim asserts that every successful handshake
produces a session id ordered after every id issued earlier in the same
process run, over the whole process lifetime. The counter is a Go `int`
(`int64`), so from the process-start state (counter 0) a run of `2^63`
successful handshakes wraps: the last allocation yields `-2^63`, which is
smaller than the previously issued `2^63 - 1`, so the issued ids of that run
are not strictly increasing. -/
theorem session_counter_wrap_breaks_order :
    ¬ List.Pairwise (· < ·)
      (issuedTrace { sessionIDCounter := 0, fileNames := [] }
        (List.replicate (2 ^ 63) (some reqEmpty))) := by
  intro hpw
  rw [issuedTrace_replicate] at hpw
  have hpw2 := (List.pairwise_map).mp hpw
  have hget := (List.pairwise_iff_get).mp hpw2
  have hlen : (List.range (2 ^ 63)).length = 2 ^ 63 := List.length_range _
  have hi : 2 ^ 63 - 2 < (List.range (2 ^ 63)).length := by rw [hlen]; omega
  have hj : 2 ^ 63 - 1 < (List.range (2 ^ 63)).length := by rw [hlen]; omega
  have hlt := hget ⟨2 ^ 63 - 2, hi⟩ ⟨2 ^ 63 - 1, hj⟩ (Fin.mk_lt_mk.mpr (by omega))
  rw [List.get_range, List.get_range] at hlt
  have hv1 : iterCounter 0 (2 ^ 63 - 2 + 1) = ((2 ^ 63 - 1 : Nat) : Int) := by
    rw [show (2 ^ 63 - 2 + 1 : Nat) = 2 ^ 63 - 1 by omega]
    exact iterCounter_id_below _ (by push_cast)
  have hv2 : iterCounter 0 (2 ^ 63 - 1 + 1) = -2 ^ 63 := by
    rw [show (2 ^ 63 - 1 + 1 : Nat) = (2 ^ 63 - 1) + 1 by omega, iterCounter_succ,
      iterCounter_id_below _ (by push_cast)]
    rw [int64Wrap]
    have hcast : ((2 ^ 63 - 1 : Nat) : Int) + 1 = 2 ^ 63 := by push_cast
    rw [hcast]
    norm_num
  rw [hv1, hv2] at hlt
  push_cast at hlt

/-- C3 amended: session ids are unique and strictly increasing throughout any
process run in which the number of successful handshakes does not overflow
the `int64` session counter (fewer than `2^63` allocations — every physically
realizable run): along any linearized sequence of `PrepareReceive` calls (the
counter increment is guarded by `sessionMutex`, so concurrent calls serialize
into such a sequence), each successful call allocates a counter value
strictly greater than every earlier one and greater than the starting
counter, and the rendered `session-N` strings of the run are pairwise
distinct. -/
theorem session_ids_unique_increasing_no_overflow (st : ServerState)
    (bodies : List (Option PrepareReceiveRequest))
    (hstart : 0 ≤ st.sessionIDCounter)
    (hbound : st.sessionIDCounter + (countDecoded bodies : Int) < 2 ^ 63) :
    List.Pairwise (· < ·) (issuedTrace st bodies) ∧
    List.Pairwise (fun a b => sessionIDString a ≠ sessionIDString b) (issuedTrace st bodies) ∧
    ∀ n ∈ issuedTrace st bodies, st.sessionIDCounter < n := by
  obtain ⟨hmem, hpw⟩ := issuedTrace_no_overflow bodies st hstart hbound
  refine ⟨hpw, ?_, fun n hn => (hmem n hn).1⟩
  refine List.Pairwise.imp_of_mem ?_ hpw
  intro a b ha hb hlt heq
  have ha0 : 0 ≤ a := le_of_lt (lt_of_le_of_lt hstart (hmem a ha).1)
  have hb0 : 0 ≤ b := le_of_lt (lt_of_le_of_lt hstart (hmem b hb).1)
  exact absurd (sessionIDString_inj_nonneg a b ha0 hb0 heq) (ne_of_lt hlt)

/-- C3 amended witness: two handshakes from a fresh server allocate the ids
`session-1` then `session-2`, and those rendered ids differ. -/
theorem session_ids_unique_increasing_no_overflow_witness :
    sessionIDString 1 ≠ sessionIDString 2 := by
  have h := (session_ids_unique_increasing_no_overflow
    { sessionIDCounter := 0, fileNames := [] }
    [some reqEmpty, some reqEmpty] (by norm_num) (by norm_num [countDecoded])).2.1
  have htr : issuedTrace { sessionIDCounter := 0, fileNames := [] }
      [some reqEmpty, some reqEmpty] = [1, 2] := by decide
  rw [htr] at h
  exact (List.pairwise_cons.mp h).1 2 (by simp)

end LocalSendGo
